import Mathlib

/-!
Shallow embedding of the FAT-table engine of `libfat`
(`src/src/table.rs` and `src/src/fat/detail/directory/dir_entry.rs`).

Machine integers are modelled as `Nat` with explicit `% 2^w` at the points
where the Rust code truncates (`as u8`, `as u16`, `& 0x0FFF_FFFF`, ...).
The storage device is modelled as a byte-addressed map `Nat → Nat`; every
device read or write succeeds (the claims under study all concern the
success paths; the counting of device calls is made explicit so that the
no-I/O claims can be stated).
-/

/-- The four-valued FAT cell type (`FatValue` in `src/src/table.rs`). -/
inductive FatValue
  | Free
  | Data (n : Nat)
  | Bad
  | EndOfChain
deriving DecidableEq, Repr

/-- The FAT variant tag (`FatFsType`). -/
inductive FatFsType
  | Fat12
  | Fat16
  | Fat32
deriving DecidableEq, Repr

/-- `FatValue::from_fat32_value`: decode a raw (already masked) FAT32 cell.
The match arms are in source order: `0`, `0x0FFF_FFF7`,
`0x0FFF_FFF8..=0x0FFF_FFFF`, catch-all `Data`. -/
def FatValue.from_fat32_value (val : Nat) : FatValue :=
  if val = 0 then .Free
  else if val = 0x0FFFFFF7 then .Bad
  else if 0x0FFFFFF8 ≤ val ∧ val ≤ 0x0FFFFFFF then .EndOfChain
  else .Data val

/-- `FatValue::to_fat32_value`. `Data(n)` carries a `u32` in the source, so
no further truncation happens here (the write path masks with
`& 0x0FFF_FFFF`). -/
def FatValue.to_fat32_value : FatValue → Nat
  | .Free => 0
  | .Bad => 0x0FFFFFF7
  | .EndOfChain => 0x0FFFFFFF
  | .Data n => n

/-- `FatValue::from_fat16_value`. -/
def FatValue.from_fat16_value (val : Nat) : FatValue :=
  if val = 0 then .Free
  else if val = 0xFFF7 then .Bad
  else if 0xFFF8 ≤ val ∧ val ≤ 0xFFFF then .EndOfChain
  else .Data val

/-- `FatValue::to_fat16_value`. The `Data` arm is `n as u16`, i.e.
`n % 2^16`. -/
def FatValue.to_fat16_value : FatValue → Nat
  | .Free => 0
  | .Bad => 0xFFF7
  | .EndOfChain => 0xFFFF
  | .Data n => n % 65536

/-- `FatValue::from_fat12_value`. -/
def FatValue.from_fat12_value (val : Nat) : FatValue :=
  if val = 0 then .Free
  else if val = 0xFF7 then .Bad
  else if 0xFF8 ≤ val ∧ val ≤ 0xFFF then .EndOfChain
  else .Data val

/-- `FatValue::to_fat12_value`. The `Data` arm is `n as u16` (note: the
source truncates to 16 bits here, not 12; the 12-bit truncation only
happens in the byte splice of `raw_put`). -/
def FatValue.to_fat12_value : FatValue → Nat
  | .Free => 0
  | .Bad => 0xFF7
  | .EndOfChain => 0xFFF
  | .Data n => n % 65536

/-- Spec-level `decode(variant, raw)` dispatcher over the three source
decoders (spec §4.1). -/
def decode : FatFsType → Nat → FatValue
  | .Fat12, v => FatValue.from_fat12_value v
  | .Fat16, v => FatValue.from_fat16_value v
  | .Fat32, v => FatValue.from_fat32_value v

/-- Spec-level `encode(variant, cell)` dispatcher over the three source
encoders (spec §4.1). -/
def encode : FatFsType → FatValue → Nat
  | .Fat12, v => FatValue.to_fat12_value v
  | .Fat16, v => FatValue.to_fat16_value v
  | .Fat32, v => FatValue.to_fat32_value v

/-- Highest value of each variant's EndOfChain range (spec §4.1 table). -/
def eocTop : FatFsType → Nat
  | .Fat12 => 0xFFF
  | .Fat16 => 0xFFFF
  | .Fat32 => 0x0FFFFFFF

/-- The `Data` range of a variant (spec §4.1 table: "all others", within
the cell width). -/
def inDataRangeB : FatFsType → Nat → Bool
  | .Fat12, n => 0 < n && n < 0xFF7
  | .Fat16, n => 0 < n && n < 0xFFF7
  | .Fat32, n => 0 < n && n < 0x0FFFFFF7

/-- A canonical cell of a variant: `Free`, `Bad`, `EndOfChain`, or `Data n`
with `n` inside the variant's Data range. -/
def canonicalCellB (ft : FatFsType) : FatValue → Bool
  | .Data n => inDataRangeB ft n
  | _ => true

/-- Whether a cell is a `Data` cell. -/
def FatValue.isData : FatValue → Bool
  | .Data _ => true
  | _ => false

/-! ## Byte-level storage device -/

/-- Device contents: a byte for every absolute offset. -/
def Disk : Type := Nat → Nat

/-- Read one byte (bytes are kept modulo 256 on read). -/
def rd8 (d : Disk) (o : Nat) : Nat := d o % 256

/-- Write one byte. -/
def wr8 (d : Disk) (o b : Nat) : Disk := fun x => if x = o then b else d x

/-- Write a buffer of bytes at consecutive offsets (a single device
`write(offset, buffer)` call). -/
def wrBytes (d : Disk) (o : Nat) : List Nat → Disk
  | [] => d
  | b :: bs => wrBytes (wr8 d o b) (o + 1) bs

/-- `u16::from_le_bytes` of the two bytes at `o`. -/
def rd16 (d : Disk) (o : Nat) : Nat := rd8 d o + 256 * rd8 d (o + 1)

/-- `u32::from_le_bytes` of the four bytes at `o`. -/
def rd32 (d : Disk) (o : Nat) : Nat :=
  rd8 d o + 256 * rd8 d (o + 1) + 65536 * rd8 d (o + 2) + 16777216 * rd8 d (o + 3)

/-- `u16::to_le_bytes`. -/
def u16Bytes (v : Nat) : List Nat := [v % 256, v / 256 % 256]

/-- `u32::to_le_bytes`. -/
def u32Bytes (v : Nat) : List Nat :=
  [v % 256, v / 256 % 256, v / 65536 % 256, v / 16777216 % 256]

/-! ## Geometry and cell addressing -/

/-- The geometry record consumed by the FAT engine: the fields of
`fs.boot_record` (and `fs.partition_start`) that `table.rs` reads.
`first_fat_byte` is the byte offset of FAT replica 0 from the partition
start (`reserved_block_count * bytes_per_block` in the source). -/
structure FatFileSystem where
  fat_type : FatFsType
  bytes_per_block : Nat
  fat_size : Nat
  fats_count : Nat
  cluster_count : Nat
  partition_start : Nat
  first_fat_byte : Nat
deriving DecidableEq, Repr

/-- Modelled from the spec: `Cluster::to_fat_offset` is code of this
repository not under `src/`. Spec §4.2: the cell's byte offset within a
FAT is `floor(c * width / 8)` with width 12/16/32, i.e. `c + c/2`,
`c * 2`, `c * 4`. -/
def to_fat_offset : FatFsType → Nat → Nat
  | .Fat12, c => c + c / 2
  | .Fat16, c => c * 2
  | .Fat32, c => c * 4

/-- Modelled from the spec: `Cluster::to_fat_bytes_offset` is code of this
repository not under `src/`. It is the block-aligned part of the cell's
offset, counted from the partition start: `first_fat_byte +
(to_fat_offset / bytes_per_block) * bytes_per_block` (spec §4.2 combined
with how `table.rs` re-adds `fat_offset % bytes_per_block`). -/
def to_fat_bytes_offset (fs : FatFileSystem) (c : Nat) : Nat :=
  fs.first_fat_byte + to_fat_offset fs.fat_type c / fs.bytes_per_block * fs.bytes_per_block

/-- Width in bytes of the word read/written for one cell. -/
def cellLen : FatFsType → Nat
  | .Fat12 => 2
  | .Fat16 => 2
  | .Fat32 => 4

/-- `cluster_storage_offset` as computed in `from_cluster`:
`to_fat_bytes_offset + (fat_index * fat_size) * bytes_per_block`, where
`fat_index * fat_size` is a `u32` multiplication (hence `% 2^32`). -/
def cluster_storage_offset (fs : FatFileSystem) (c fat_index : Nat) : Nat :=
  to_fat_bytes_offset fs c + fat_index * fs.fat_size % 4294967296 * fs.bytes_per_block

/-- `partition_storage_offset` as computed in `from_cluster` and
`raw_put`: `partition_start + cluster_storage_offset + fat_offset %
bytes_per_block`. -/
def partition_storage_offset (fs : FatFileSystem) (c fat_index : Nat) : Nat :=
  fs.partition_start + cluster_storage_offset fs c fat_index
    + to_fat_offset fs.fat_type c % fs.bytes_per_block

/-! ## Cell I/O (`FatValue::from_cluster`, `get`, `raw_put`, `put`) -/

/-- `FatValue::from_cluster`: read the word holding the cell of cluster
`c` in FAT replica `fat_index`, extract and decode it; also return
`cluster_storage_offset` as the source does. Reads always succeed in this
model. `& 0x0FFF_FFFF` is `% 2^28`; `& 0x0FFF` is `% 2^12`; `>> 4` is
`/ 16`; `cluster.0 & 1 == 1` is `c % 2 = 1`. -/
def from_cluster (fs : FatFileSystem) (d : Disk) (c fat_index : Nat) : FatValue × Nat :=
  let off := partition_storage_offset fs c fat_index
  match fs.fat_type with
  | .Fat32 => (FatValue.from_fat32_value (rd32 d off % 268435456),
      cluster_storage_offset fs c fat_index)
  | .Fat16 => (FatValue.from_fat16_value (rd16 d off),
      cluster_storage_offset fs c fat_index)
  | .Fat12 =>
      let value := rd16 d off
      let value := if c % 2 = 1 then value / 16 else value % 4096
      (FatValue.from_fat12_value value, cluster_storage_offset fs c fat_index)

/-- `FatValue::get`: the decoded cell of cluster `c`, read from FAT
replica 0. -/
def get (fs : FatFileSystem) (d : Disk) (c : Nat) : FatValue :=
  (from_cluster fs d c 0).1

/-- `FatValue::raw_put`: write `value` at cluster `c` in FAT replica
`fat_index`. Returns the new disk together with the number of device
reads and device writes performed. The FAT12 byte splice reproduces the
source bit-for-bit, including the even-phase arm
`data[1] = (data[0] & 0xF0) | ((value >> 8) & 0x0F)` in which `data[0]`
has already been overwritten by `value as u8`:
`(v % 256) / 16 * 16 + v / 256 % 16`. The odd-phase arm is
`data[0] = (data[0] & 0x0F) | (value << 4) as u8`,
`data[1] = (value >> 4) as u8`. -/
def raw_put (fs : FatFileSystem) (d : Disk) (c : Nat) (value : FatValue) (fat_index : Nat) :
    Disk × Nat × Nat :=
  let res := (from_cluster fs d c fat_index).1
  let off := partition_storage_offset fs c fat_index
  if res = value then (d, 1, 0)
  else
    match fs.fat_type with
    | .Fat32 => (wrBytes d off (u32Bytes (value.to_fat32_value % 268435456)), 1, 1)
    | .Fat16 => (wrBytes d off (u16Bytes value.to_fat16_value), 1, 1)
    | .Fat12 =>
        let b0 := rd8 d off
        let v := value.to_fat12_value
        let data :=
          if c % 2 = 1 then
            [b0 % 16 + v * 16 % 256, v / 16 % 256]
          else
            [v % 256, v % 256 / 16 * 16 + v / 256 % 16]
        (wrBytes d off data, 2, 1)

/-- The loop body of `FatValue::put`: run `raw_put` for each listed
replica index, threading the disk and summing the device-call counters. -/
def putIndices (fs : FatFileSystem) (c : Nat) (value : FatValue) :
    List Nat → Disk → Disk × Nat × Nat
  | [], d => (d, 0, 0)
  | r :: rs, d =>
      let p := raw_put fs d c value r
      let q := putIndices fs c value rs p.1
      (q.1, p.2.1 + q.2.1, p.2.2 + q.2.2)

/-- `FatValue::put`: write `value` at cluster `c` in every FAT replica,
in ascending replica order `0 .. fats_count`. -/
def put (fs : FatFileSystem) (d : Disk) (c : Nat) (value : FatValue) : Disk × Nat × Nat :=
  putIndices fs c value (List.range fs.fats_count) d

/-- The loop of `FatValue::initialize` over a list of cluster indices. -/
def initClusters (fs : FatFileSystem) : List Nat → Disk → Disk
  | [], d => d
  | c :: cs, d => initClusters fs cs (put fs d c .Free).1

/-- `FatValue::initialize`: write `Free` at every cluster index in
`[0, cluster_count)`. -/
def init_fats (fs : FatFileSystem) (d : Disk) : Disk :=
  initClusters fs (List.range fs.cluster_count) d

/-- The `while current_cluster.0 < cluster_count` loop of
`get_free_cluster_count`, with fuel equal to the number of remaining
iterations. -/
def freeCountLoop (fs : FatFileSystem) (d : Disk) : Nat → Nat → Nat
  | _, 0 => 0
  | cur, fuel + 1 =>
      if cur < fs.cluster_count then
        (if get fs d cur = .Free then 1 else 0) + freeCountLoop fs d (cur + 1) fuel
      else 0

/-- `get_free_cluster_count`: count the `Free` cells from cluster 2 up to
`cluster_count` (exclusive). -/
def get_free_cluster_count (fs : FatFileSystem) (d : Disk) : Nat :=
  freeCountLoop fs d 2 (fs.cluster_count - 2)

/-! ## Chain iterator and chain queries -/

/-- `FatClusterIter`: the last cluster returned and the last `FatValue`
read. -/
structure FatClusterIter where
  current_cluster : Option Nat
  last_fat : Option FatValue
deriving DecidableEq, Repr

/-- `FatClusterIter::new`: seed the iterator and eagerly read the seed's
cell (`FatValue::get(...).ok()`; reads always succeed in this model). -/
def FatClusterIter.new (fs : FatFileSystem) (d : Disk) (cluster : Nat) : FatClusterIter :=
  { current_cluster := some cluster, last_fat := some (get fs d cluster) }

/-- `FatClusterIter::next` (`FileSystemIterator::next`): emit the current
cluster; advance through `Data` cells, terminate on anything else. -/
def FatClusterIter.next (it : FatClusterIter) (fs : FatFileSystem) (d : Disk) :
    Option Nat × FatClusterIter :=
  match it.current_cluster with
  | none => (none, it)
  | some res =>
      match it.last_fat with
      | some (.Data data) =>
          (some res, { current_cluster := some data, last_fat := some (get fs d data) })
      | _ => (some res, { current_cluster := none, last_fat := it.last_fat })

/-- Drive the iterator for at most `fuel` steps and collect the emitted
clusters: the list yielded by `iter_chain`. -/
def collectChain (fs : FatFileSystem) (d : Disk) : Nat → FatClusterIter → List Nat
  | 0, _ => []
  | fuel + 1, it =>
      match it.next fs d with
      | (none, _) => []
      | (some c, it') => c :: collectChain fs d fuel it'

/-- `get_last_and_previous_cluster`: follow `Data` links from `c`,
remembering the previous cluster; `none` when the `while` loop does not
terminate within `fuel` steps. -/
def get_last_and_previous_cluster (fs : FatFileSystem) (d : Disk) :
    Nat → Nat → Option Nat → Option (Nat × Option Nat)
  | 0, _, _ => none
  | fuel + 1, c, prev =>
      match get fs d c with
      | .Data v => get_last_and_previous_cluster fs d fuel v (some c)
      | _ => some (c, prev)

/-- `get_last_cluster`: first component of
`get_last_and_previous_cluster`. -/
def get_last_cluster (fs : FatFileSystem) (d : Disk) (fuel seed : Nat) : Option Nat :=
  (get_last_and_previous_cluster fs d fuel seed none).map Prod.fst

/-! ## Directory-entry locator (`DirectoryEntryRawInfo::get_dir_entry`) -/

/-- Error type of the re-read: the locator either exhausts the stream
(`NotFound`) or propagates a slot-read error. In the source both are the
same `FileSystemError`; the sum keeps them apart. -/
inductive DirEntryError (E : Type)
  | NotFound
  | Dev (e : E)
deriving DecidableEq, Repr

/-- Modelled from the spec: `FatDirEntryIterator` is code of this
repository not under `src/`. Spec §6: the raw-directory-entry stream is a
finite lazy sequence of `Result<RawSlot, Error>` steps followed by
end-of-stream; it is modelled as the list of its produced results, with
`get? i = none` for every step past the end. -/
def slotIsErr {E S : Type} : Except E S → Bool
  | .error _ => true
  | .ok _ => false

/-- True when one of the first `n` stream results is a slot-read error. -/
def isErrAt {E S : Type} (slots : List (Except E S)) (j : Nat) : Bool :=
  match slots.get? j with
  | some (.error _) => true
  | _ => false

/-- No slot-read error among the first `n` stream results. -/
def errFreeBelow {E S : Type} : List (Except E S) → Nat → Bool
  | _, 0 => true
  | [], _ + 1 => true
  | .error _ :: _, _ + 1 => false
  | .ok _ :: rest, n + 1 => errFreeBelow rest n

/-- The `while i < entry_count` loop of `get_dir_entry`, with fuel
`entry_count - i`: at each step take the next stream result; a slot
error propagates immediately via `?`; a produced slot replaces `res`;
end-of-stream resets `res` to `none`. -/
def gdeLoop {E S : Type} (slots : List (Except E S)) :
    Nat → Nat → Option S → Except (DirEntryError E) (Option S)
  | 0, _, res => .ok res
  | fuel + 1, i, res =>
      match slots.get? i with
      | some (.error e) => .error (.Dev e)
      | some (.ok s) => gdeLoop slots fuel (i + 1) (some s)
      | none => gdeLoop slots fuel (i + 1) none

/-- `DirectoryEntryRawInfo::get_dir_entry`: consume `entry_count`
successive raw slots and return the last; `NotFound` when the final
`res` is `none`. -/
def get_dir_entry {E S : Type} (slots : List (Except E S)) (entry_count : Nat) :
    Except (DirEntryError E) S :=
  match gdeLoop slots entry_count 0 none with
  | .error e => .error e
  | .ok (some s) => .ok s
  | .ok none => .error .NotFound

/-! ## Derived decoding helper and concrete witness volumes -/

/-- What a `raw_put` write leaves readable in the cell: the encoded value
truncated to the bits the variant actually stores (2^12 for Fat12 via
the splice, 2^16 for Fat16, 2^28 for Fat32 via the mask), re-decoded. -/
def decodeTrunc : FatFsType → FatValue → FatValue
  | .Fat12, v => FatValue.from_fat12_value (v.to_fat12_value % 4096)
  | .Fat16, v => FatValue.from_fat16_value v.to_fat16_value
  | .Fat32, v => FatValue.from_fat32_value (v.to_fat32_value % 268435456)

/-- A small FAT16 volume used by concrete witnesses. -/
def fs16w : FatFileSystem :=
  { fat_type := .Fat16, bytes_per_block := 512, fat_size := 1, fats_count := 1,
    cluster_count := 6, partition_start := 0, first_fat_byte := 0 }

/-- A FAT16 volume with two FAT replicas. -/
def fs16w2 : FatFileSystem :=
  { fat_type := .Fat16, bytes_per_block := 512, fat_size := 1, fats_count := 2,
    cluster_count := 6, partition_start := 0, first_fat_byte := 0 }

/-- A small FAT12 volume used by concrete witnesses. -/
def fs12w : FatFileSystem :=
  { fat_type := .Fat12, bytes_per_block := 512, fat_size := 1, fats_count := 1,
    cluster_count := 16, partition_start := 0, first_fat_byte := 0 }

/-- A small FAT32 volume used by concrete witnesses. -/
def fs32w : FatFileSystem :=
  { fat_type := .Fat32, bytes_per_block := 512, fat_size := 1, fats_count := 1,
    cluster_count := 16, partition_start := 0, first_fat_byte := 0 }

/-- The all-zero disk. -/
def dzero : Disk := fun _ => 0

/-- The all-`0xFF` disk. -/
def dff : Disk := fun _ => 255

/-- FAT12 backing with bytes `AB CD EF` at the cells of clusters 2 and 3
(FAT byte offsets 3, 4, 5): spec scenario S4/S5. -/
def d12 : Disk := fun o =>
  if o = 3 then 0xAB else if o = 4 then 0xCD else if o = 5 then 0xEF else 0

/-- FAT32 backing with bytes `F8 FF FF 0F` at the cell-0 offset. -/
def dEoc : Disk := fun o =>
  if o = 0 then 0xF8 else if o = 1 then 0xFF else if o = 2 then 0xFF
  else if o = 3 then 0x0F else 0

/-- FAT32 backing with bytes `F7 FF FF 8F` at the cell-0 offset. -/
def dBad : Disk := fun o =>
  if o = 0 then 0xF7 else if o = 1 then 0xFF else if o = 2 then 0xFF
  else if o = 3 then 0x8F else 0

/-- FAT16 backing holding the chain 2 → 3 → 4 → EndOfChain
(spec scenario S3). -/
def dChain : Disk := fun o =>
  if o = 4 then 3 else if o = 6 then 4 else if o = 8 then 255
  else if o = 9 then 255 else 0

/-! # Theorems -/

/-! ## Codec lemmas -/

theorem from12_to12_data (n : Nat) (h1 : 0 < n) (h2 : n < 0xFF7) :
    FatValue.from_fat12_value (FatValue.to_fat12_value (.Data n)) = .Data n := by
  simp only [FatValue.to_fat12_value, FatValue.from_fat12_value]
  rw [Nat.mod_eq_of_lt (by omega), if_neg (by omega), if_neg (by omega), if_neg (by omega)]

theorem from16_to16_data (n : Nat) (h1 : 0 < n) (h2 : n < 0xFFF7) :
    FatValue.from_fat16_value (FatValue.to_fat16_value (.Data n)) = .Data n := by
  simp only [FatValue.to_fat16_value, FatValue.from_fat16_value]
  rw [Nat.mod_eq_of_lt (by omega), if_neg (by omega), if_neg (by omega), if_neg (by omega)]

theorem from32_to32_data (n : Nat) (h1 : 0 < n) (h2 : n < 0x0FFFFFF7) :
    FatValue.from_fat32_value (FatValue.to_fat32_value (.Data n)) = .Data n := by
  simp only [FatValue.to_fat32_value, FatValue.from_fat32_value]
  rw [if_neg (by omega), if_neg (by omega), if_neg (by omega)]

/-- C7: for every variant V and every canonical cell c (`Free`, `Bad`,
`EndOfChain`, or `Data n` with n inside V's Data range),
`decode(V, encode(V, c)) = c`, and `encode(V, EndOfChain)` is the highest
value of V's EndOfChain range (0xFFF / 0xFFFF / 0x0FFFFFFF). -/
theorem codec_round_trip (ft : FatFsType) (c : FatValue) (h : canonicalCellB ft c = true) :
    decode ft (encode ft c) = c ∧ encode ft FatValue.EndOfChain = eocTop ft := by
  refine ⟨?_, by cases ft <;> decide⟩
  cases ft <;> cases c <;>
    simp_all [canonicalCellB, inDataRangeB, decode, encode] <;>
    first
      | decide
      | exact from12_to12_data _ (by omega) (by omega)
      | exact from16_to16_data _ (by omega) (by omega)
      | exact from32_to32_data _ (by omega) (by omega)

/-- Witness for C7 at the concrete input V = Fat16, c = Data 5. -/
theorem codec_round_trip_witness :
    canonicalCellB .Fat16 (.Data 5) = true
    ∧ (decode .Fat16 (encode .Fat16 (.Data 5)) = .Data 5
       ∧ encode .Fat16 FatValue.EndOfChain = eocTop .Fat16) :=
  ⟨by decide, codec_round_trip .Fat16 (.Data 5) (by decide)⟩

/-- C3 counterexample: on-disk bytes `F7 FF FF 8F` at the cell-0 offset of
a Fat32 volume decode to `Bad` (the masked value `0x0FFFFFF7` is the bad
marker), not to `EndOfChain` as the claim states. -/
theorem fat32_high_nibble_cex :
    get fs32w dBad 0 = .Bad ∧ FatValue.Bad ≠ .EndOfChain := by decide

/-- C3 (amended): Fat32 decoding masks the reserved high nibble: bytes
`F8 FF FF 0F` at the cell-0 offset decode to `EndOfChain`; bytes
`F7 FF FF 8F` decode to `Bad` (masking turns `0x8FFFFFF7` into the bad
marker `0x0FFFFFF7`, not into an EndOfChain value); a high-nibble variant
of the terminator, `0x8FFFFFF8`, is masked to `EndOfChain`. -/
theorem fat32_high_nibble_mask :
    get fs32w dEoc 0 = .EndOfChain
    ∧ get fs32w dBad 0 = .Bad
    ∧ FatValue.from_fat32_value (0x8FFFFFF7 % 268435456) = .Bad
    ∧ FatValue.from_fat32_value (0x8FFFFFF8 % 268435456) = .EndOfChain := by decide

/-- C1 (code bug): on a Fat12 volume with backing bytes `AB CD EF` at FAT
offsets 3..5 (cells 2 and 3), `put(2, Data 0x123)` succeeds and writes
cell 2, but the even-phase splice rebuilds the shared byte's high nibble
from the freshly written `data[0]` instead of the old `data[1]`, so the
neighboring cell 3 changes from `Data 0xEFC` to `Data 0xEF2`. -/
theorem fat12_even_put_clobbers_neighbor :
    get fs12w d12 3 = .Data 0xEFC
    ∧ get fs12w (put fs12w d12 2 (.Data 0x123)).1 2 = .Data 0x123
    ∧ get fs12w (put fs12w d12 2 (.Data 0x123)).1 3 = .Data 0xEF2
    ∧ get fs12w (put fs12w d12 2 (.Data 0x123)).1 3 ≠ get fs12w d12 3 := by decide

/-! ## Chain iterator lemmas -/

theorem collectChain_none (fs : FatFileSystem) (d : Disk) (fuel : Nat) (it : FatClusterIter)
    (h : it.current_cluster = none) : collectChain fs d fuel it = [] := by
  cases fuel with
  | zero => rfl
  | succ n => simp [collectChain, FatClusterIter.next, h]

theorem getLast?_cons_of_getLast? {α : Type} (a : α) (xs : List α) (l : α)
    (h : xs.getLast? = some l) : (a :: xs).getLast? = some l := by
  cases xs with
  | nil => simp at h
  | cons b ys => rw [List.getLast?_cons_cons]; exact h

/-- C8: the chain iterator yields the seed as its first emitted cluster,
even when the seed's cell is not `Data` (in that case the chain has
length one); when the seed's cell is `Data n` the iterator advances to
`n`. -/
theorem iter_chain_yields_seed (fs : FatFileSystem) (d : Disk) (seed fuel : Nat) :
    (collectChain fs d (fuel + 1) (FatClusterIter.new fs d seed)).head? = some seed
    ∧ ((get fs d seed).isData = false →
        collectChain fs d (fuel + 1) (FatClusterIter.new fs d seed) = [seed])
    ∧ (∀ n, get fs d seed = .Data n →
        (collectChain fs d (fuel + 2) (FatClusterIter.new fs d seed)).get? 1 = some n) := by
  refine ⟨?_, ?_, ?_⟩
  · cases hv : get fs d seed <;>
      simp [collectChain, FatClusterIter.next, FatClusterIter.new, hv]
  · intro h
    cases hv : get fs d seed with
    | Data n => rw [hv] at h; simp [FatValue.isData] at h
    | Free =>
        simp [collectChain, FatClusterIter.next, FatClusterIter.new, hv, collectChain_none]
    | Bad =>
        simp [collectChain, FatClusterIter.next, FatClusterIter.new, hv, collectChain_none]
    | EndOfChain =>
        simp [collectChain, FatClusterIter.next, FatClusterIter.new, hv, collectChain_none]
  · intro n hv
    cases hw : get fs d n <;>
      simp [collectChain, FatClusterIter.new, FatClusterIter.next, hv, hw]

/-- Witness for C8: on the FAT16 chain volume, seed 5 (an EndOfChain
cell) yields the one-element chain `[5]`; seed 2 (a Data cell pointing
at 3) yields 3 as its second cluster. -/
theorem iter_chain_yields_seed_witness :
    (collectChain fs16w dChain 3 (FatClusterIter.new fs16w dChain 5)).head? = some 5
    ∧ collectChain fs16w dChain 3 (FatClusterIter.new fs16w dChain 5) = [5]
    ∧ (collectChain fs16w dChain 4 (FatClusterIter.new fs16w dChain 2)).get? 1 = some 3 :=
  ⟨(iter_chain_yields_seed fs16w dChain 5 2).1,
   (iter_chain_yields_seed fs16w dChain 5 2).2.1 (by decide),
   (iter_chain_yields_seed fs16w dChain 2 2).2.2 3 (by decide)⟩

theorem glap_collect (fs : FatFileSystem) (d : Disk) :
    ∀ (fuel c : Nat) (prev : Option Nat) (l : Nat) (p : Option Nat),
      get_last_and_previous_cluster fs d fuel c prev = some (l, p) →
      (collectChain fs d fuel (FatClusterIter.new fs d c)).getLast? = some l := by
  intro fuel
  induction fuel with
  | zero => intro c prev l p h; simp [get_last_and_previous_cluster] at h
  | succ n ih =>
      intro c prev l p h
      cases hv : get fs d c with
      | Data v =>
          rw [get_last_and_previous_cluster, hv] at h
          have hIH := ih v (some c) l p h
          simp only [FatClusterIter.new] at hIH ⊢
          rw [collectChain]
          simp only [FatClusterIter.next, hv]
          exact getLast?_cons_of_getLast? _ _ _ hIH
      | Free =>
          rw [get_last_and_previous_cluster, hv] at h
          simp only [Option.some.injEq, Prod.mk.injEq] at h
          obtain ⟨h1, h2⟩ := h
          subst h1
          simp [collectChain, FatClusterIter.next, FatClusterIter.new, hv, collectChain_none]
      | Bad =>
          rw [get_last_and_previous_cluster, hv] at h
          simp only [Option.some.injEq, Prod.mk.injEq] at h
          obtain ⟨h1, h2⟩ := h
          subst h1
          simp [collectChain, FatClusterIter.next, FatClusterIter.new, hv, collectChain_none]
      | EndOfChain =>
          rw [get_last_and_previous_cluster, hv] at h
          simp only [Option.some.injEq, Prod.mk.injEq] at h
          obtain ⟨h1, h2⟩ := h
          subst h1
          simp [collectChain, FatClusterIter.next, FatClusterIter.new, hv, collectChain_none]

/-- C5: when the traversal of `get_last_and_previous_cluster` terminates
(within `fuel` steps; all cell reads succeed in this model), the last
cluster it returns is the final cluster yielded by the chain iterator
run with the same fuel, and `get_last_cluster` returns that cluster. -/
theorem last_cluster_iter_chain (fs : FatFileSystem) (d : Disk) (fuel seed l : Nat)
    (p : Option Nat)
    (h : get_last_and_previous_cluster fs d fuel seed none = some (l, p)) :
    (collectChain fs d fuel (FatClusterIter.new fs d seed)).getLast? = some l
    ∧ get_last_cluster fs d fuel seed = some l := by
  refine ⟨glap_collect fs d fuel seed none l p h, ?_⟩
  simp [get_last_cluster, h]

/-- Witness for C5 on the FAT16 chain 2 → 3 → 4 → EndOfChain. -/
theorem last_cluster_iter_chain_witness :
    get_last_and_previous_cluster fs16w dChain 9 2 none = some (4, some 3)
    ∧ ((collectChain fs16w dChain 9 (FatClusterIter.new fs16w dChain 2)).getLast? = some 4
       ∧ get_last_cluster fs16w dChain 9 2 = some 4) :=
  ⟨by decide, last_cluster_iter_chain fs16w dChain 9 2 4 (some 3) (by decide)⟩

/-! ## Byte-level device lemmas -/

theorem rd8_lt (d : Disk) (o : Nat) : rd8 d o < 256 := Nat.mod_lt _ (by omega)

theorem rd16_lt (d : Disk) (o : Nat) : rd16 d o < 65536 := by
  have h1 := rd8_lt d o
  have h2 := rd8_lt d (o + 1)
  unfold rd16
  omega

theorem rd32_lt (d : Disk) (o : Nat) : rd32 d o < 4294967296 := by
  have h1 := rd8_lt d o
  have h2 := rd8_lt d (o + 1)
  have h3 := rd8_lt d (o + 2)
  have h4 := rd8_lt d (o + 3)
  unfold rd32
  omega

theorem rd8_wr8_same (d : Disk) (o b : Nat) : rd8 (wr8 d o b) o = b % 256 := by
  simp [rd8, wr8]

theorem rd8_wr8_other (d : Disk) (o b x : Nat) (h : x ≠ o) :
    rd8 (wr8 d o b) x = rd8 d x := by
  simp [rd8, wr8, h]

theorem rd8_wrBytes_out (bs : List Nat) : ∀ (d : Disk) (o x : Nat),
    x < o ∨ o + bs.length ≤ x → rd8 (wrBytes d o bs) x = rd8 d x := by
  induction bs with
  | nil => intro d o x _; rfl
  | cons b bs ih =>
      intro d o x h
      simp only [List.length_cons] at h
      rw [wrBytes, ih (wr8 d o b) (o + 1) x (by omega),
        rd8_wr8_other d o b x (by omega)]

theorem rd16_wrBytes2 (d : Disk) (o a b : Nat) :
    rd16 (wrBytes d o [a, b]) o = a % 256 + 256 * (b % 256) := by
  show rd16 (wr8 (wr8 d o a) (o + 1) b) o = _
  simp only [rd16]
  rw [rd8_wr8_other _ _ _ _ (by omega), rd8_wr8_same, rd8_wr8_same]

theorem rd32_wrBytes4 (d : Disk) (o a b e f : Nat) :
    rd32 (wrBytes d o [a, b, e, f]) o
      = a % 256 + 256 * (b % 256) + 65536 * (e % 256) + 16777216 * (f % 256) := by
  show rd32 (wr8 (wr8 (wr8 (wr8 d o a) (o + 1) b) (o + 2) e) (o + 3) f) o = _
  simp only [rd32]
  rw [rd8_wr8_other _ _ _ _ (by omega), rd8_wr8_other _ _ _ _ (by omega),
    rd8_wr8_other _ _ _ _ (by omega), rd8_wr8_same,
    rd8_wr8_other _ _ _ _ (by omega), rd8_wr8_other _ _ _ _ (by omega), rd8_wr8_same,
    rd8_wr8_other _ _ _ _ (by omega), rd8_wr8_same, rd8_wr8_same]

/-! ## Addressing lemmas -/

theorem pso_eq (fs : FatFileSystem) (c r : Nat) (hb : 0 < fs.bytes_per_block) :
    partition_storage_offset fs c r
      = fs.partition_start + fs.first_fat_byte
        + r * fs.fat_size % 4294967296 * fs.bytes_per_block
        + to_fat_offset fs.fat_type c := by
  unfold partition_storage_offset cluster_storage_offset to_fat_bytes_offset
  have h : to_fat_offset fs.fat_type c / fs.bytes_per_block * fs.bytes_per_block
      + to_fat_offset fs.fat_type c % fs.bytes_per_block = to_fat_offset fs.fat_type c := by
    rw [Nat.mul_comm]
    exact Nat.div_add_mod _ _
  generalize r * fs.fat_size % 4294967296 * fs.bytes_per_block = K at h ⊢
  generalize to_fat_offset fs.fat_type c / fs.bytes_per_block * fs.bytes_per_block = q at h ⊢
  generalize to_fat_offset fs.fat_type c % fs.bytes_per_block = m at h ⊢
  generalize to_fat_offset fs.fat_type c = t at h ⊢
  omega

theorem to_fat_offset_mono (ft : FatFsType) {a b : Nat} (h : a ≤ b) :
    to_fat_offset ft a ≤ to_fat_offset ft b := by
  cases ft <;> simp only [to_fat_offset] <;> omega

theorem addr_disj (ft : FatFsType) {cl c : Nat} (h : cl < c)
    (h2 : ft = .Fat12 → c % 2 = 0 ∨ cl + 1 < c) :
    to_fat_offset ft cl + cellLen ft ≤ to_fat_offset ft c := by
  cases ft <;> simp only [to_fat_offset, cellLen]
  · rcases h2 rfl with h3 | h3 <;> omega
  · omega
  · omega

/-! ## Value bounds and decode fixpoints -/

theorem to_fat12_lt (v : FatValue) : v.to_fat12_value < 65536 := by
  cases v <;> simp [FatValue.to_fat12_value] <;> omega

theorem to_fat16_lt (v : FatValue) : v.to_fat16_value < 65536 := by
  cases v <;> simp [FatValue.to_fat16_value] <;> omega

theorem decodeTrunc_from12 (x : Nat) (hx : x < 4096) :
    decodeTrunc .Fat12 (FatValue.from_fat12_value x) = FatValue.from_fat12_value x := by
  unfold FatValue.from_fat12_value
  split_ifs with h1 h2 h3
  · rfl
  · rfl
  · rfl
  · show FatValue.from_fat12_value (FatValue.to_fat12_value (.Data x) % 4096) = .Data x
    simp only [FatValue.to_fat12_value]
    have hxx : x % 65536 % 4096 = x := by omega
    rw [hxx]
    unfold FatValue.from_fat12_value
    rw [if_neg h1, if_neg h2, if_neg h3]

theorem decodeTrunc_from16 (x : Nat) (hx : x < 65536) :
    decodeTrunc .Fat16 (FatValue.from_fat16_value x) = FatValue.from_fat16_value x := by
  unfold FatValue.from_fat16_value
  split_ifs with h1 h2 h3
  · rfl
  · rfl
  · rfl
  · show FatValue.from_fat16_value (FatValue.to_fat16_value (.Data x)) = .Data x
    simp only [FatValue.to_fat16_value]
    rw [Nat.mod_eq_of_lt hx]
    unfold FatValue.from_fat16_value
    rw [if_neg h1, if_neg h2, if_neg h3]

theorem decodeTrunc_from32 (x : Nat) (hx : x < 268435456) :
    decodeTrunc .Fat32 (FatValue.from_fat32_value x) = FatValue.from_fat32_value x := by
  unfold FatValue.from_fat32_value
  split_ifs with h1 h2 h3
  · rfl
  · rfl
  · rfl
  · show FatValue.from_fat32_value (FatValue.to_fat32_value (.Data x) % 268435456) = .Data x
    simp only [FatValue.to_fat32_value]
    rw [Nat.mod_eq_of_lt hx]
    unfold FatValue.from_fat32_value
    rw [if_neg h1, if_neg h2, if_neg h3]

theorem decodeTrunc_from_cluster (fs : FatFileSystem) (d : Disk) (c r : Nat) :
    decodeTrunc fs.fat_type (from_cluster fs d c r).1 = (from_cluster fs d c r).1 := by
  cases hft : fs.fat_type with
  | Fat12 =>
      simp only [from_cluster, hft]
      have hlt := rd16_lt d (partition_storage_offset fs c r)
      exact decodeTrunc_from12 _ (by split <;> omega)
  | Fat16 =>
      simp only [from_cluster, hft]
      exact decodeTrunc_from16 _ (rd16_lt d _)
  | Fat32 =>
      simp only [from_cluster, hft]
      exact decodeTrunc_from32 _ (by omega)

/-! ## raw_put characterization -/

theorem rd8_wrBytes2_out (d : Disk) (o a b x : Nat) (h : x < o ∨ o + 2 ≤ x) :
    rd8 (wrBytes d o [a, b]) x = rd8 d x :=
  rd8_wrBytes_out [a, b] d o x (by simpa using h)

theorem rd8_wrBytes4_out (d : Disk) (o a b e f x : Nat) (h : x < o ∨ o + 4 ≤ x) :
    rd8 (wrBytes d o [a, b, e, f]) x = rd8 d x :=
  rd8_wrBytes_out [a, b, e, f] d o x (by simpa using h)

theorem raw_put_noop (fs : FatFileSystem) (d : Disk) (c : Nat) (v : FatValue) (r : Nat)
    (h : (from_cluster fs d c r).1 = v) : raw_put fs d c v r = (d, 1, 0) := by
  unfold raw_put
  simp only [if_pos h]


theorem raw_put_rd8_out (fs : FatFileSystem) (d : Disk) (c : Nat) (v : FatValue) (r x : Nat)
    (h : x < partition_storage_offset fs c r
       ∨ partition_storage_offset fs c r + cellLen fs.fat_type ≤ x) :
    rd8 (raw_put fs d c v r).1 x = rd8 d x := by
  by_cases hnoop : (from_cluster fs d c r).1 = v
  · rw [raw_put_noop fs d c v r hnoop]
  · unfold raw_put
    rw [if_neg hnoop]
    cases hft : fs.fat_type with
    | Fat12 =>
        rw [hft] at h
        simp only [cellLen] at h
        simp only [hft]
        by_cases hc : c % 2 = 1
        · simp only [if_pos hc]
          exact rd8_wrBytes2_out _ _ _ _ _ h
        · simp only [if_neg hc]
          exact rd8_wrBytes2_out _ _ _ _ _ h
    | Fat16 =>
        rw [hft] at h
        simp only [cellLen] at h
        simp only [hft, u16Bytes]
        exact rd8_wrBytes2_out _ _ _ _ _ h
    | Fat32 =>
        rw [hft] at h
        simp only [cellLen] at h
        simp only [hft, u32Bytes]
        exact rd8_wrBytes4_out _ _ _ _ _ _ _ h

theorem raw_put_readback_16 (fs : FatFileSystem) (d : Disk) (c : Nat) (v : FatValue) (r : Nat)
    (hft : fs.fat_type = .Fat16) (hnoop : (from_cluster fs d c r).1 ≠ v) :
    (from_cluster fs (raw_put fs d c v r).1 c r).1
      = FatValue.from_fat16_value v.to_fat16_value := by
  have hv := to_fat16_lt v
  unfold raw_put
  rw [if_neg hnoop]
  simp only [from_cluster, hft, u16Bytes]
  rw [rd16_wrBytes2]
  congr 1
  omega

theorem raw_put_readback_32 (fs : FatFileSystem) (d : Disk) (c : Nat) (v : FatValue) (r : Nat)
    (hft : fs.fat_type = .Fat32) (hnoop : (from_cluster fs d c r).1 ≠ v) :
    (from_cluster fs (raw_put fs d c v r).1 c r).1
      = FatValue.from_fat32_value (v.to_fat32_value % 268435456) := by
  have hv : v.to_fat32_value % 268435456 < 268435456 := Nat.mod_lt _ (by omega)
  unfold raw_put
  rw [if_neg hnoop]
  simp only [from_cluster, hft, u32Bytes]
  rw [rd32_wrBytes4]
  congr 1
  omega

theorem raw_put_readback_12 (fs : FatFileSystem) (d : Disk) (c : Nat) (v : FatValue) (r : Nat)
    (hft : fs.fat_type = .Fat12) (hnoop : (from_cluster fs d c r).1 ≠ v) :
    (from_cluster fs (raw_put fs d c v r).1 c r).1
      = FatValue.from_fat12_value (v.to_fat12_value % 4096) := by
  have hv := to_fat12_lt v
  have hb0 := rd8_lt d (partition_storage_offset fs c r)
  unfold raw_put
  rw [if_neg hnoop]
  simp only [from_cluster, hft]
  by_cases hc : c % 2 = 1
  · simp only [if_pos hc]
    rw [rd16_wrBytes2]
    congr 1
    omega
  · simp only [if_neg hc]
    rw [rd16_wrBytes2]
    congr 1
    omega

theorem rd8_wrBytes2_first (d : Disk) (o a b : Nat) : rd8 (wrBytes d o [a, b]) o = a % 256 := by
  show rd8 (wr8 (wr8 d o a) (o + 1) b) o = _
  rw [rd8_wr8_other _ _ _ _ (by omega), rd8_wr8_same]

theorem raw_put_readback (fs : FatFileSystem) (d : Disk) (c : Nat) (v : FatValue) (r : Nat) :
    (from_cluster fs (raw_put fs d c v r).1 c r).1 = decodeTrunc fs.fat_type v := by
  by_cases hnoop : (from_cluster fs d c r).1 = v
  · rw [raw_put_noop fs d c v r hnoop]
    show (from_cluster fs d c r).1 = _
    rw [← hnoop]
    exact (decodeTrunc_from_cluster fs d c r).symm
  · cases hft : fs.fat_type with
    | Fat12 => exact raw_put_readback_12 fs d c v r hft hnoop
    | Fat16 => exact raw_put_readback_16 fs d c v r hft hnoop
    | Fat32 => exact raw_put_readback_32 fs d c v r hft hnoop

theorem raw_put_fat12_even_neighbor (fs : FatFileSystem) (d : Disk) (c : Nat) (v : FatValue)
    (r : Nat) (hft : fs.fat_type = .Fat12) (hc : c % 2 = 1) (hb : 0 < fs.bytes_per_block) :
    (from_cluster fs (raw_put fs d c v r).1 (c - 1) r).1 = (from_cluster fs d (c - 1) r).1 := by
  by_cases hnoop : (from_cluster fs d c r).1 = v
  · rw [raw_put_noop fs d c v r hnoop]
  · have hoff : partition_storage_offset fs c r = partition_storage_offset fs (c - 1) r + 1 := by
      rw [pso_eq fs c r hb, pso_eq fs (c - 1) r hb, hft]
      simp only [to_fat_offset]
      omega
    have hv := to_fat12_lt v
    have hb0 := rd8_lt d (partition_storage_offset fs (c - 1) r)
    have hb1 := rd8_lt d (partition_storage_offset fs (c - 1) r + 1)
    have hc1 : ¬((c - 1) % 2 = 1) := by omega
    unfold raw_put
    rw [if_neg hnoop]
    simp only [hft, if_pos hc]
    simp only [from_cluster, hft, if_neg hc1, rd16, hoff]
    rw [rd8_wrBytes2_out _ _ _ _ _ (by omega), rd8_wrBytes2_first]
    congr 1
    omega

theorem pso_sep (fs : FatFileSystem) (cw cr rw0 rr : Nat)
    (hb : 0 < fs.bytes_per_block)
    (hK : fs.fats_count * fs.fat_size < 4294967296)
    (hw : rw0 < fs.fats_count) (hlt : rr < rw0)
    (hfitr : to_fat_offset fs.fat_type cr + cellLen fs.fat_type
      ≤ fs.fat_size * fs.bytes_per_block) :
    partition_storage_offset fs cr rr + cellLen fs.fat_type
      ≤ partition_storage_offset fs cw rw0 := by
  rw [pso_eq fs cr rr hb, pso_eq fs cw rw0 hb]
  have h1 : rr * fs.fat_size % 4294967296 = rr * fs.fat_size :=
    Nat.mod_eq_of_lt (lt_of_le_of_lt (Nat.mul_le_mul_right _ (by omega)) hK)
  have h2 : rw0 * fs.fat_size % 4294967296 = rw0 * fs.fat_size :=
    Nat.mod_eq_of_lt (lt_of_le_of_lt (Nat.mul_le_mul_right _ (by omega)) hK)
  rw [h1, h2]
  have h3 : (rr + 1) * fs.fat_size * fs.bytes_per_block
      ≤ rw0 * fs.fat_size * fs.bytes_per_block :=
    Nat.mul_le_mul_right _ (Nat.mul_le_mul_right _ (by omega))
  have h4 : rr * fs.fat_size * fs.bytes_per_block + fs.fat_size * fs.bytes_per_block
      = (rr + 1) * fs.fat_size * fs.bytes_per_block := by ring
  generalize rr * fs.fat_size * fs.bytes_per_block = A at h3 h4 ⊢
  generalize rw0 * fs.fat_size * fs.bytes_per_block = B2 at h3 ⊢
  generalize (rr + 1) * fs.fat_size * fs.bytes_per_block = D at h3 h4
  generalize fs.fat_size * fs.bytes_per_block = C at h4 hfitr
  omega

theorem pso_same_replica_sep (fs : FatFileSystem) (cl c r : Nat) (hb : 0 < fs.bytes_per_block)
    (h : cl < c) (h2 : fs.fat_type = .Fat12 → c % 2 = 0 ∨ cl + 1 < c) :
    partition_storage_offset fs cl r + cellLen fs.fat_type
      ≤ partition_storage_offset fs c r := by
  rw [pso_eq fs cl r hb, pso_eq fs c r hb]
  have h3 := addr_disj fs.fat_type h h2
  generalize r * fs.fat_size % 4294967296 * fs.bytes_per_block = K
  omega

theorem fit_of_lt (fs : FatFileSystem) {c : Nat}
    (hfit : to_fat_offset fs.fat_type (fs.cluster_count - 1) + cellLen fs.fat_type
      ≤ fs.fat_size * fs.bytes_per_block)
    (hc : c < fs.cluster_count) :
    to_fat_offset fs.fat_type c + cellLen fs.fat_type
      ≤ fs.fat_size * fs.bytes_per_block := by
  have := to_fat_offset_mono fs.fat_type (show c ≤ fs.cluster_count - 1 by omega)
  omega

theorem from_cluster_rd_eq (fs : FatFileSystem) (d1 d2 : Disk) (c r : Nat)
    (h : ∀ i, i < cellLen fs.fat_type →
      rd8 d1 (partition_storage_offset fs c r + i)
        = rd8 d2 (partition_storage_offset fs c r + i)) :
    (from_cluster fs d1 c r).1 = (from_cluster fs d2 c r).1 := by
  cases hft : fs.fat_type with
  | Fat12 =>
      rw [hft] at h
      simp only [cellLen] at h
      have h0 := h 0 (by omega)
      have h1 := h 1 (by omega)
      simp only [Nat.add_zero] at h0
      simp only [from_cluster, hft, rd16]
      rw [h0, h1]
  | Fat16 =>
      rw [hft] at h
      simp only [cellLen] at h
      have h0 := h 0 (by omega)
      have h1 := h 1 (by omega)
      simp only [Nat.add_zero] at h0
      simp only [from_cluster, hft, rd16]
      rw [h0, h1]
  | Fat32 =>
      rw [hft] at h
      simp only [cellLen] at h
      have h0 := h 0 (by omega)
      have h1 := h 1 (by omega)
      have h2 := h 2 (by omega)
      have h3 := h 3 (by omega)
      simp only [Nat.add_zero] at h0
      simp only [from_cluster, hft, rd32]
      rw [h0, h1, h2, h3]

theorem raw_put_preserves_cell (fs : FatFileSystem) (d : Disk) (cw : Nat) (v : FatValue)
    (rw0 cr rr : Nat)
    (hsep : partition_storage_offset fs cr rr + cellLen fs.fat_type
        ≤ partition_storage_offset fs cw rw0
      ∨ partition_storage_offset fs cw rw0 + cellLen fs.fat_type
        ≤ partition_storage_offset fs cr rr) :
    (from_cluster fs (raw_put fs d cw v rw0).1 cr rr).1 = (from_cluster fs d cr rr).1 := by
  apply from_cluster_rd_eq
  intro i hi
  apply raw_put_rd8_out
  rcases hsep with h | h
  · left; omega
  · right; omega

theorem putIndices_readback (fs : FatFileSystem) (c : Nat) (v : FatValue)
    (hb : 0 < fs.bytes_per_block)
    (hK : fs.fats_count * fs.fat_size < 4294967296)
    (hfit : to_fat_offset fs.fat_type c + cellLen fs.fat_type
      ≤ fs.fat_size * fs.bytes_per_block) :
    ∀ (k j : Nat) (d : Disk), j + k ≤ fs.fats_count →
      (∀ r, r < j → (from_cluster fs d c r).1 = decodeTrunc fs.fat_type v) →
      ∀ r, r < j + k →
        (from_cluster fs (putIndices fs c v (List.range' j k) d).1 c r).1
          = decodeTrunc fs.fat_type v := by
  intro k
  induction k with
  | zero =>
      intro j d hjk hprev r hr
      simpa using hprev r (by omega)
  | succ n ih =>
      intro j d hjk hprev r hr
      have hstep : ∀ r2, r2 < j + 1 →
          (from_cluster fs (raw_put fs d c v j).1 c r2).1 = decodeTrunc fs.fat_type v := by
        intro r2 hr2
        by_cases hr2j : r2 = j
        · subst hr2j
          exact raw_put_readback fs d c v r2
        · have hpres := raw_put_preserves_cell fs d c v j c r2
            (Or.inl (pso_sep fs c c j r2 hb hK (by omega) (by omega) hfit))
          rw [hpres]
          exact hprev r2 (by omega)
      have hmain := ih (j + 1) (raw_put fs d c v j).1 (by omega) hstep r (by omega)
      simpa [putIndices, List.range'] using hmain

theorem put_readback (fs : FatFileSystem) (d : Disk) (c : Nat) (v : FatValue)
    (hb : 0 < fs.bytes_per_block)
    (hK : fs.fats_count * fs.fat_size < 4294967296)
    (hfit : to_fat_offset fs.fat_type c + cellLen fs.fat_type
      ≤ fs.fat_size * fs.bytes_per_block) :
    ∀ r, r < fs.fats_count →
      (from_cluster fs (put fs d c v).1 c r).1 = decodeTrunc fs.fat_type v := by
  intro r hr
  have hmain := putIndices_readback fs c v hb hK hfit fs.fats_count 0 d (by omega)
    (by intro r2 h2; omega) r (by omega)
  simpa [put, List.range_eq_range'] using hmain

theorem putIndices_noop (fs : FatFileSystem) (c : Nat) (v : FatValue) :
    ∀ (k j : Nat) (d : Disk),
      (∀ r, j ≤ r → r < j + k → (from_cluster fs d c r).1 = v) →
      putIndices fs c v (List.range' j k) d = (d, k, 0) := by
  intro k
  induction k with
  | zero => intro j d _; rfl
  | succ n ih =>
      intro j d h
      have h1 : raw_put fs d c v j = (d, 1, 0) :=
        raw_put_noop fs d c v j (h j (by omega) (by omega))
      have h2 := ih (j + 1) d (fun r hr1 hr2 => h r (by omega) (by omega))
      simp only [List.range', putIndices, h1, h2]
      simp [Nat.add_comm]

theorem decodeTrunc_data12 (n : Nat) (h1 : 0 < n) (h2 : n < 0xFF7) :
    decodeTrunc .Fat12 (.Data n) = .Data n := by
  simp only [decodeTrunc, FatValue.to_fat12_value]
  have hx : n % 65536 % 4096 = n := by omega
  rw [hx]
  unfold FatValue.from_fat12_value
  rw [if_neg (by omega), if_neg (by omega), if_neg (by omega)]

theorem decodeTrunc_data16 (n : Nat) (h1 : 0 < n) (h2 : n < 0xFFF7) :
    decodeTrunc .Fat16 (.Data n) = .Data n := by
  simp only [decodeTrunc, FatValue.to_fat16_value]
  have hx : n % 65536 = n := by omega
  rw [hx]
  unfold FatValue.from_fat16_value
  rw [if_neg (by omega), if_neg (by omega), if_neg (by omega)]

theorem decodeTrunc_data32 (n : Nat) (h1 : 0 < n) (h2 : n < 0x0FFFFFF7) :
    decodeTrunc .Fat32 (.Data n) = .Data n := by
  simp only [decodeTrunc, FatValue.to_fat32_value]
  have hx : n % 268435456 = n := by omega
  rw [hx]
  unfold FatValue.from_fat32_value
  rw [if_neg (by omega), if_neg (by omega), if_neg (by omega)]

theorem decodeTrunc_canonical (ft : FatFsType) (v : FatValue)
    (h : canonicalCellB ft v = true) : decodeTrunc ft v = v := by
  cases ft <;> cases v <;>
    simp_all [canonicalCellB, inDataRangeB] <;>
    first
      | decide
      | exact decodeTrunc_data12 _ (by omega) (by omega)
      | exact decodeTrunc_data16 _ (by omega) (by omega)
      | exact decodeTrunc_data32 _ (by omega) (by omega)

theorem from12_trunc_ne_data (n : Nat) (h : inDataRangeB .Fat12 n = false) :
    FatValue.from_fat12_value (n % 4096) ≠ .Data n := by
  have h' : n = 0 ∨ 0xFF7 ≤ n := by
    by_contra hcon
    push_neg at hcon
    have ht : inDataRangeB .Fat12 n = true := by
      simp only [inDataRangeB, Bool.and_eq_true, decide_eq_true_eq]
      omega
    rw [ht] at h
    simp at h
  unfold FatValue.from_fat12_value
  split_ifs with h1 h2 h3
  · simp
  · simp
  · simp
  · intro heq
    injection heq with hn
    omega

theorem from16_trunc_ne_data (n : Nat) (h : inDataRangeB .Fat16 n = false) :
    FatValue.from_fat16_value (n % 65536) ≠ .Data n := by
  have h' : n = 0 ∨ 0xFFF7 ≤ n := by
    by_contra hcon
    push_neg at hcon
    have ht : inDataRangeB .Fat16 n = true := by
      simp only [inDataRangeB, Bool.and_eq_true, decide_eq_true_eq]
      omega
    rw [ht] at h
    simp at h
  unfold FatValue.from_fat16_value
  split_ifs with h1 h2 h3
  · simp
  · simp
  · simp
  · intro heq
    injection heq with hn
    omega

theorem from32_trunc_ne_data (n : Nat) (h : inDataRangeB .Fat32 n = false) :
    FatValue.from_fat32_value (n % 268435456) ≠ .Data n := by
  have h' : n = 0 ∨ 0x0FFFFFF7 ≤ n := by
    by_contra hcon
    push_neg at hcon
    have ht : inDataRangeB .Fat32 n = true := by
      simp only [inDataRangeB, Bool.and_eq_true, decide_eq_true_eq]
      omega
    rw [ht] at h
    simp at h
  unfold FatValue.from_fat32_value
  split_ifs with h1 h2 h3
  · simp
  · simp
  · simp
  · intro heq
    injection heq with hn
    omega

/-- C2 counterexample: with `c = Data 65536` on a Fat16 volume, `put`
succeeds but the cell read back is `Free` (the encoder truncated 65536 to
0), so the claim fails for non-canonical cell values. -/
theorem put_get_truncation_cex :
    get fs16w (put fs16w dzero 2 (.Data 65536)).1 2 = .Free
    ∧ FatValue.Free ≠ .Data 65536 := by decide

/-- C2 (amended): for every canonical cell `v` of the volume's variant,
after `put(c, v)` reading cell `c` from each of the `fats_count` FAT
replicas yields `v`; in particular `get(c) = v`. -/
theorem put_mirrors_replicas (fs : FatFileSystem) (d : Disk) (c : Nat) (v : FatValue)
    (hb : 0 < fs.bytes_per_block) (hN : 1 ≤ fs.fats_count)
    (hK : fs.fats_count * fs.fat_size < 4294967296)
    (hfit : to_fat_offset fs.fat_type c + cellLen fs.fat_type
      ≤ fs.fat_size * fs.bytes_per_block)
    (hcanon : canonicalCellB fs.fat_type v = true) :
    (∀ r, r < fs.fats_count → (from_cluster fs (put fs d c v).1 c r).1 = v)
    ∧ get fs (put fs d c v).1 c = v := by
  have hdec := decodeTrunc_canonical fs.fat_type v hcanon
  have hmain := put_readback fs d c v hb hK hfit
  refine ⟨fun r hr => ?_, ?_⟩
  · rw [hmain r hr, hdec]
  · show (from_cluster fs (put fs d c v).1 c 0).1 = v
    rw [hmain 0 (by omega), hdec]

/-- Witness for C2 (amended) on a two-replica FAT16 volume. -/
theorem put_mirrors_replicas_witness :
    (0 < fs16w2.bytes_per_block ∧ 1 ≤ fs16w2.fats_count
      ∧ fs16w2.fats_count * fs16w2.fat_size < 4294967296
      ∧ canonicalCellB fs16w2.fat_type (.Data 3) = true)
    ∧ (from_cluster fs16w2 (put fs16w2 dzero 2 (.Data 3)).1 2 0).1 = .Data 3
    ∧ (from_cluster fs16w2 (put fs16w2 dzero 2 (.Data 3)).1 2 1).1 = .Data 3
    ∧ get fs16w2 (put fs16w2 dzero 2 (.Data 3)).1 2 = .Data 3 :=
  ⟨by decide,
   (put_mirrors_replicas fs16w2 dzero 2 (.Data 3) (by decide) (by decide) (by decide)
      (by decide) (by decide)).1 0 (by decide),
   (put_mirrors_replicas fs16w2 dzero 2 (.Data 3) (by decide) (by decide) (by decide)
      (by decide) (by decide)).1 1 (by decide),
   (put_mirrors_replicas fs16w2 dzero 2 (.Data 3) (by decide) (by decide) (by decide)
      (by decide) (by decide)).2⟩

/-- C4 counterexample: a no-op `put` still performs one device read per
replica (the comparison read of `from_cluster` inside `raw_put`), so the
device-call count is not zero. -/
theorem noop_put_device_calls_cex :
    get fs16w dzero 2 = .Free
    ∧ (put fs16w dzero 2 .Free).2.1 = 1
    ∧ (put fs16w dzero 2 .Free).2.1 ≠ 0 := by decide

/-- C4 (amended): when the stored cell already equals the requested value
at every replica, `put` succeeds, performs exactly one device read per
replica and zero device writes, and leaves the disk unchanged. -/
theorem noop_put_no_writes (fs : FatFileSystem) (d : Disk) (c : Nat) (v : FatValue)
    (h : ∀ r, r < fs.fats_count → (from_cluster fs d c r).1 = v) :
    put fs d c v = (d, fs.fats_count, 0) := by
  rw [put, List.range_eq_range']
  exact putIndices_noop fs c v fs.fats_count 0 d (fun r _ hr2 => h r (by omega))

/-- Witness for C4 (amended). -/
theorem noop_put_no_writes_witness :
    (∀ r, r < fs16w.fats_count → (from_cluster fs16w dzero 2 r).1 = .Free)
    ∧ put fs16w dzero 2 .Free = (dzero, fs16w.fats_count, 0) :=
  ⟨by decide, noop_put_no_writes fs16w dzero 2 .Free (by decide)⟩

/-- C10: the Fat16/Fat12 encoders truncate `Data n` (`n as u16`); the
stored cell is `n mod 2^16` for Fat16 and `n mod 2^12` for Fat12 (the
splice keeps 12 bits), `put` succeeds, and `get` returns the decode of
the truncated value, which is not `Data n` when `n` lies outside the
variant's Data range. -/
theorem encoder_truncation (fs : FatFileSystem) (d : Disk) (c n : Nat)
    (hb : 0 < fs.bytes_per_block) (hN : 1 ≤ fs.fats_count)
    (hK : fs.fats_count * fs.fat_size < 4294967296)
    (hfit : to_fat_offset fs.fat_type c + cellLen fs.fat_type
      ≤ fs.fat_size * fs.bytes_per_block) :
    FatValue.to_fat16_value (.Data n) = n % 65536
    ∧ FatValue.to_fat12_value (.Data n) = n % 65536
    ∧ (fs.fat_type = .Fat16 →
        get fs (put fs d c (.Data n)).1 c = FatValue.from_fat16_value (n % 65536))
    ∧ (fs.fat_type = .Fat12 →
        get fs (put fs d c (.Data n)).1 c = FatValue.from_fat12_value (n % 4096))
    ∧ (inDataRangeB fs.fat_type n = false →
        get fs (put fs d c (.Data n)).1 c ≠ .Data n) := by
  have hget : get fs (put fs d c (.Data n)).1 c = decodeTrunc fs.fat_type (.Data n) :=
    put_readback fs d c (.Data n) hb hK hfit 0 (by omega)
  refine ⟨rfl, rfl, ?_, ?_, ?_⟩
  · intro hft
    rw [hget, hft]
    rfl
  · intro hft
    rw [hget, hft]
    simp only [decodeTrunc, FatValue.to_fat12_value]
    have hx : n % 65536 % 4096 = n % 4096 := by omega
    rw [hx]
  · intro hrange
    rw [hget]
    cases hft : fs.fat_type
    · rw [hft] at hrange
      have hx : n % 65536 % 4096 = n % 4096 := by omega
      simp only [decodeTrunc, FatValue.to_fat12_value, hx]
      exact from12_trunc_ne_data n hrange
    · rw [hft] at hrange
      exact from16_trunc_ne_data n hrange
    · rw [hft] at hrange
      exact from32_trunc_ne_data n hrange

/-- Witness for C10 at n = 65539 (Fat16) and n = 4097 (Fat12). -/
theorem encoder_truncation_witness :
    (get fs16w (put fs16w dzero 2 (.Data 65539)).1 2 = FatValue.from_fat16_value (65539 % 65536)
     ∧ get fs16w (put fs16w dzero 2 (.Data 65539)).1 2 ≠ .Data 65539)
    ∧ get fs12w (put fs12w dzero 2 (.Data 4097)).1 2 = FatValue.from_fat12_value (4097 % 4096) :=
  ⟨⟨(encoder_truncation fs16w dzero 2 65539 (by decide) (by decide) (by decide)
      (by decide)).2.2.1 rfl,
    (encoder_truncation fs16w dzero 2 65539 (by decide) (by decide) (by decide)
      (by decide)).2.2.2.2 (by decide)⟩,
   (encoder_truncation fs12w dzero 2 4097 (by decide) (by decide) (by decide)
      (by decide)).2.2.2.1 rfl⟩

/-! ## free_count and initialization -/

theorem freeCountLoop_eq_countP (fs : FatFileSystem) (d : Disk) :
    ∀ (fuel cur : Nat), cur + fuel ≤ fs.cluster_count →
      freeCountLoop fs d cur fuel
        = (List.range' cur fuel).countP (fun c => decide (get fs d c = FatValue.Free)) := by
  intro fuel
  induction fuel with
  | zero => intro cur _; rfl
  | succ n ih =>
      intro cur h
      rw [freeCountLoop, if_pos (by omega), List.range', List.countP_cons,
        ih (cur + 1) (by omega)]
      by_cases hf : get fs d cur = .Free
      · rw [if_pos hf]
        simp [hf]
        omega
      · rw [if_neg hf]
        simp [hf]

theorem decodeTrunc_free (ft : FatFsType) : decodeTrunc ft .Free = .Free := by
  cases ft <;> decide

theorem raw_put_preserves_lower_read (fs : FatFileSystem) (d : Disk) (a : Nat) (v : FatValue)
    (j cr : Nat)
    (hb : 0 < fs.bytes_per_block)
    (hK : fs.fats_count * fs.fat_size < 4294967296)
    (hj : j < fs.fats_count)
    (hfitcr : to_fat_offset fs.fat_type cr + cellLen fs.fat_type
      ≤ fs.fat_size * fs.bytes_per_block)
    (hcr : cr < a) :
    (from_cluster fs (raw_put fs d a v j).1 cr 0).1 = (from_cluster fs d cr 0).1 := by
  rcases Nat.eq_zero_or_pos j with hj0 | hj0
  · subst hj0
    by_cases hsp : fs.fat_type = .Fat12 ∧ a % 2 = 1 ∧ cr = a - 1
    · obtain ⟨hft, hodd, hcreq⟩ := hsp
      subst hcreq
      exact raw_put_fat12_even_neighbor fs d a v 0 hft hodd hb
    · apply raw_put_preserves_cell
      apply Or.inl
      apply pso_same_replica_sep fs cr a 0 hb hcr
      intro hft
      by_cases hodd : a % 2 = 1
      · by_cases hce : cr = a - 1
        · exact absurd ⟨hft, hodd, hce⟩ hsp
        · right; omega
      · left; omega
  · apply raw_put_preserves_cell
    apply Or.inl
    exact pso_sep fs a cr j 0 hb hK hj hj0 hfitcr

theorem putIndices_preserves_lower (fs : FatFileSystem) (a : Nat) (v : FatValue) (cr : Nat)
    (hb : 0 < fs.bytes_per_block)
    (hK : fs.fats_count * fs.fat_size < 4294967296)
    (hfitcr : to_fat_offset fs.fat_type cr + cellLen fs.fat_type
      ≤ fs.fat_size * fs.bytes_per_block)
    (hcr : cr < a) :
    ∀ (k j : Nat) (d : Disk), j + k ≤ fs.fats_count →
      (from_cluster fs (putIndices fs a v (List.range' j k) d).1 cr 0).1
        = (from_cluster fs d cr 0).1 := by
  intro k
  induction k with
  | zero => intro j d _; rfl
  | succ n ih =>
      intro j d h
      have h1 := ih (j + 1) (raw_put fs d a v j).1 (by omega)
      have h2 := raw_put_preserves_lower_read fs d a v j cr hb hK (by omega) hfitcr hcr
      simpa [putIndices, List.range'] using h1.trans h2

theorem get_put_lower (fs : FatFileSystem) (d : Disk) (a : Nat) (v : FatValue) (cr : Nat)
    (hb : 0 < fs.bytes_per_block)
    (hK : fs.fats_count * fs.fat_size < 4294967296)
    (hfitcr : to_fat_offset fs.fat_type cr + cellLen fs.fat_type
      ≤ fs.fat_size * fs.bytes_per_block)
    (hcr : cr < a) :
    get fs (put fs d a v).1 cr = get fs d cr := by
  show (from_cluster fs (put fs d a v).1 cr 0).1 = (from_cluster fs d cr 0).1
  simp only [put, List.range_eq_range']
  exact putIndices_preserves_lower fs a v cr hb hK hfitcr hcr fs.fats_count 0 d (by omega)

theorem initClusters_all_free (fs : FatFileSystem)
    (hb : 0 < fs.bytes_per_block) (hN : 1 ≤ fs.fats_count)
    (hK : fs.fats_count * fs.fat_size < 4294967296)
    (hfit : to_fat_offset fs.fat_type (fs.cluster_count - 1) + cellLen fs.fat_type
      ≤ fs.fat_size * fs.bytes_per_block) :
    ∀ (k a : Nat) (d : Disk), a + k ≤ fs.cluster_count →
      (∀ c2, c2 < a → get fs d c2 = .Free) →
      ∀ c2, c2 < a + k → get fs (initClusters fs (List.range' a k) d) c2 = .Free := by
  intro k
  induction k with
  | zero => intro a d _ hprev c2 hc2; simpa using hprev c2 (by omega)
  | succ n ih =>
      intro a d hak hprev c2 hc2
      have hstep : ∀ c3, c3 < a + 1 → get fs (put fs d a .Free).1 c3 = .Free := by
        intro c3 hc3
        by_cases hc3a : c3 = a
        · subst hc3a
          have hrb := put_readback fs d c3 .Free hb hK (fit_of_lt fs hfit (by omega)) 0
            (by omega)
          show (from_cluster fs (put fs d c3 .Free).1 c3 0).1 = .Free
          rw [hrb, decodeTrunc_free]
        · rw [get_put_lower fs d a .Free c3 hb hK (fit_of_lt fs hfit (by omega)) (by omega)]
          exact hprev c3 (by omega)
      have hmain := ih (a + 1) (put fs d a .Free).1 (by omega) hstep c2 (by omega)
      simpa [initClusters, List.range'] using hmain

theorem init_fats_all_free (fs : FatFileSystem) (d : Disk)
    (hb : 0 < fs.bytes_per_block) (hN : 1 ≤ fs.fats_count)
    (hK : fs.fats_count * fs.fat_size < 4294967296)
    (hfit : to_fat_offset fs.fat_type (fs.cluster_count - 1) + cellLen fs.fat_type
      ≤ fs.fat_size * fs.bytes_per_block) :
    ∀ c2, c2 < fs.cluster_count → get fs (init_fats fs d) c2 = .Free := by
  intro c2 hc2
  have hmain := initClusters_all_free fs hb hN hK hfit fs.cluster_count 0 d (by omega)
    (by intro c3 h3; omega) c2 (by omega)
  simpa [init_fats, List.range_eq_range'] using hmain

/-- C6: `get_free_cluster_count` returns the number of cells with index
in `[2, cluster_count)` that decode to `Free` (for any disk); and after
`init_fats` (which writes `Free` to every cell in `[0, cluster_count)`)
on a volume with `cluster_count ≥ 2`, it returns `cluster_count - 2`. -/
theorem free_count_spec (fs : FatFileSystem) (d : Disk)
    (hb : 0 < fs.bytes_per_block) (hN : 1 ≤ fs.fats_count)
    (hK : fs.fats_count * fs.fat_size < 4294967296)
    (hfit : to_fat_offset fs.fat_type (fs.cluster_count - 1) + cellLen fs.fat_type
      ≤ fs.fat_size * fs.bytes_per_block)
    (hcc : 2 ≤ fs.cluster_count) :
    get_free_cluster_count fs d
      = (List.range' 2 (fs.cluster_count - 2)).countP
          (fun c => decide (get fs d c = FatValue.Free))
    ∧ get_free_cluster_count fs (init_fats fs d) = fs.cluster_count - 2 := by
  constructor
  · exact freeCountLoop_eq_countP fs d (fs.cluster_count - 2) 2 (by omega)
  · have h1 : get_free_cluster_count fs (init_fats fs d)
        = (List.range' 2 (fs.cluster_count - 2)).countP
            (fun c => decide (get fs (init_fats fs d) c = FatValue.Free)) :=
      freeCountLoop_eq_countP fs (init_fats fs d) (fs.cluster_count - 2) 2 (by omega)
    rw [h1]
    have hlen : (List.range' 2 (fs.cluster_count - 2)).length = fs.cluster_count - 2 := by
      simp [List.length_range']
    have hcp : (List.range' 2 (fs.cluster_count - 2)).countP
        (fun c => decide (get fs (init_fats fs d) c = FatValue.Free))
        = (List.range' 2 (fs.cluster_count - 2)).length := by
      rw [List.countP_eq_length]
      intro a ha
      rw [List.mem_range'_1] at ha
      simp only [decide_eq_true_eq]
      exact init_fats_all_free fs d hb hN hK hfit a (by omega)
    rw [hcp, hlen]

/-- Witness for C6 on a FAT12 volume whose cells all start as
EndOfChain bytes (`0xFF` everywhere): after initialization the free
count is `cluster_count - 2 = 14`. -/
theorem free_count_spec_witness :
    (2 ≤ fs12w.cluster_count)
    ∧ get_free_cluster_count fs12w dff
        = (List.range' 2 (fs12w.cluster_count - 2)).countP
            (fun c => decide (get fs12w dff c = FatValue.Free))
    ∧ get_free_cluster_count fs12w (init_fats fs12w dff) = fs12w.cluster_count - 2 :=
  ⟨by decide,
   (free_count_spec fs12w dff (by decide) (by decide) (by decide) (by decide) (by decide)).1,
   (free_count_spec fs12w dff (by decide) (by decide) (by decide) (by decide) (by decide)).2⟩

/-! ## Directory-entry locator lemmas -/

theorem errFreeBelow_iff {E S : Type} :
    ∀ (slots : List (Except E S)) (n : Nat),
      errFreeBelow slots n = true ↔ ∀ j, j < n → ∀ e, slots.get? j ≠ some (.error e) := by
  intro slots
  induction slots with
  | nil =>
      intro n
      cases n <;> simp [errFreeBelow]
  | cons x rest ih =>
      intro n
      cases n with
      | zero => simp [errFreeBelow]
      | succ m =>
          cases x with
          | error e =>
              simp only [errFreeBelow]
              constructor
              · intro h
                exact absurd h (by simp)
              · intro h
                exact absurd rfl (h 0 (by omega) e)
          | ok s =>
              simp only [errFreeBelow]
              rw [ih m]
              constructor
              · intro h j hj e
                cases j with
                | zero => simp
                | succ i => simpa using h i (by omega) e
              · intro h j hj e
                have h2 := h (j + 1) (by omega) e
                simpa using h2

theorem isErrAt_true {E S : Type} (slots : List (Except E S)) (j : Nat)
    (h : isErrAt slots j = true) : ∃ e, slots.get? j = some (.error e) := by
  unfold isErrAt at h
  rcases hx : slots.get? j with _ | x
  · rw [hx] at h; simp at h
  · cases x with
    | error e => exact ⟨e, rfl⟩
    | ok s => rw [hx] at h; simp at h

theorem isErrAt_of {E S : Type} (slots : List (Except E S)) (j : Nat) (e : E)
    (h : slots.get? j = some (.error e)) : isErrAt slots j = true := by
  unfold isErrAt
  rw [h]

theorem gdeLoop_ok {E S : Type} (slots : List (Except E S)) :
    ∀ (fuel i : Nat) (res : Option S) (s : S),
      (∀ j, i ≤ j → j < i + fuel → ∀ e, slots.get? j ≠ some (.error e)) →
      i + fuel ≤ slots.length → 1 ≤ fuel →
      slots.get? (i + fuel - 1) = some (.ok s) →
      gdeLoop slots fuel i res = .ok (some s) := by
  intro fuel
  induction fuel with
  | zero => intro i res s _ _ h3 _; omega
  | succ n ih =>
      intro i res s hne hlen _ hlast
      have hi : i < slots.length := by omega
      rcases hx : slots.get? i with _ | x
      · have := List.get?_eq_none.mp hx
        omega
      · cases x with
        | error e => exact absurd hx (hne i (by omega) (by omega) e)
        | ok t =>
            simp only [gdeLoop, hx]
            rcases Nat.eq_zero_or_pos n with hn0 | hn0
            · subst hn0
              have hidx : i + 1 - 1 = i := by omega
              rw [hidx, hx] at hlast
              injection hlast with h1
              injection h1 with h2
              rw [h2]
              rfl
            · have hlast2 : slots.get? (i + 1 + n - 1) = some (.ok s) := by
                have hidx : i + 1 + n - 1 = i + (n + 1) - 1 := by omega
                rw [hidx]
                exact hlast
              exact ih (i + 1) (some t) s
                (fun j h1 h2 e => hne j (by omega) (by omega) e) (by omega) (by omega) hlast2

theorem gdeLoop_exhaust {E S : Type} (slots : List (Except E S)) :
    ∀ (fuel i : Nat) (res : Option S),
      (∀ j, i ≤ j → j < i + fuel → ∀ e, slots.get? j ≠ some (.error e)) →
      slots.length < i + fuel → 1 ≤ fuel →
      gdeLoop slots fuel i res = .ok none := by
  intro fuel
  induction fuel with
  | zero => intro i res _ _ h3; omega
  | succ n ih =>
      intro i res hne hlen _
      rcases hx : slots.get? i with _ | x
      · simp only [gdeLoop, hx]
        rcases Nat.eq_zero_or_pos n with hn0 | hn0
        · subst hn0; rfl
        · exact ih (i + 1) none (fun j h1 h2 e => hne j (by omega) (by omega) e)
            (by omega) (by omega)
      · cases x with
        | error e => exact absurd hx (hne i (by omega) (by omega) e)
        | ok t =>
            simp only [gdeLoop, hx]
            have hi : i < slots.length := by
              by_contra hcon
              rw [List.get?_eq_none.mpr (by omega)] at hx
              exact Option.noConfusion hx
            rcases Nat.eq_zero_or_pos n with hn0 | hn0
            · omega
            · exact ih (i + 1) (some t) (fun j h1 h2 e => hne j (by omega) (by omega) e)
                (by omega) (by omega)

theorem gdeLoop_err {E S : Type} (slots : List (Except E S)) :
    ∀ (fuel i : Nat) (res : Option S) (j : Nat) (e : E),
      i ≤ j → j < i + fuel →
      slots.get? j = some (.error e) →
      (∀ j2, i ≤ j2 → j2 < j → ∀ e2, slots.get? j2 ≠ some (.error e2)) →
      gdeLoop slots fuel i res = .error (.Dev e) := by
  intro fuel
  induction fuel with
  | zero => intro i res j e h1 h2 _ _; omega
  | succ n ih =>
      intro i res j e h1 h2 herr hmin
      by_cases hij : i = j
      · subst hij
        simp only [gdeLoop, herr]
      · have hjlen : j < slots.length := by
          by_contra hcon
          rw [List.get?_eq_none.mpr (by omega)] at herr
          exact Option.noConfusion herr
        have hi : i < slots.length := by omega
        rcases hx : slots.get? i with _ | x
        · have := List.get?_eq_none.mp hx
          omega
        · cases x with
          | error e2 => exact absurd hx (hmin i (by omega) (by omega) e2)
          | ok t =>
              simp only [gdeLoop, hx]
              exact ih (i + 1) (some t) j e (by omega) (by omega) herr
                (fun j2 hj1 hj2 e2 => hmin j2 (by omega) hj2 e2)

/-- C9: `get_dir_entry` consumes `entry_count` successive raw slots from
the stream and returns the last one; it returns `NotFound` exactly when
the stream is exhausted (fewer than `entry_count` results) without a
slot-read error among the consumed steps; the first slot-read error
within the first `entry_count` steps propagates as-is. -/
theorem get_dir_entry_spec {E S : Type} (slots : List (Except E S)) (n : Nat)
    (hn : 1 ≤ n) :
    (∀ s : S, errFreeBelow slots n = true → n ≤ slots.length →
        slots.get? (n - 1) = some (.ok s) → get_dir_entry slots n = .ok s)
    ∧ (get_dir_entry slots n = .error .NotFound ↔
        slots.length < n ∧ errFreeBelow slots n = true)
    ∧ (∀ (j : Nat) (e : E), j < n → slots.get? j = some (.error e) →
        errFreeBelow slots j = true → get_dir_entry slots n = .error (.Dev e)) := by
  have hok : ∀ s : S, errFreeBelow slots n = true → n ≤ slots.length →
      slots.get? (n - 1) = some (.ok s) → get_dir_entry slots n = .ok s := by
    intro s hfree hlen hlast
    have hne := (errFreeBelow_iff slots n).mp hfree
    have hloop := gdeLoop_ok slots n 0 none s
      (fun j _ hj e => hne j (by omega) e) (by omega) hn (by simpa using hlast)
    simp only [get_dir_entry, hloop]
  have herr : ∀ (j : Nat) (e : E), j < n → slots.get? j = some (.error e) →
      errFreeBelow slots j = true → get_dir_entry slots n = .error (.Dev e) := by
    intro j e hj hget hfree
    have hne := (errFreeBelow_iff slots j).mp hfree
    have hloop := gdeLoop_err slots n 0 none j e (by omega) (by omega) hget
      (fun j2 _ hj2 e2 => hne j2 hj2 e2)
    simp only [get_dir_entry, hloop]
  refine ⟨hok, ⟨?_, ?_⟩, herr⟩
  · intro hnf
    have hfree : errFreeBelow slots n = true := by
      by_contra hcon
      have hex : ∃ j, isErrAt slots j = true := by
        rcases (not_iff_not.mpr (errFreeBelow_iff slots n)).mp hcon with h
        push_neg at h
        obtain ⟨j, hj, e, hje⟩ := h
        exact ⟨j, isErrAt_of slots j e hje⟩
      have hfind := Nat.find_spec hex
      obtain ⟨e, he⟩ := isErrAt_true slots (Nat.find hex) hfind
      have hjn : Nat.find hex < n := by
        rcases (not_iff_not.mpr (errFreeBelow_iff slots n)).mp hcon with h
        push_neg at h
        obtain ⟨j, hj, e2, hje⟩ := h
        have := Nat.find_min' hex (isErrAt_of slots j e2 hje)
        omega
      have hmin : errFreeBelow slots (Nat.find hex) = true := by
        rw [errFreeBelow_iff]
        intro j2 hj2 e2 hje2
        exact Nat.find_min hex hj2 (isErrAt_of slots j2 e2 hje2)
      have := herr (Nat.find hex) e hjn he hmin
      rw [this] at hnf
      injection hnf with hne2
      exact DirEntryError.noConfusion hne2
    refine ⟨?_, hfree⟩
    by_contra hlen
    push_neg at hlen
    rcases hx : slots.get? (n - 1) with _ | x
    · have := List.get?_eq_none.mp hx
      omega
    · cases x with
      | error e =>
          have hne := (errFreeBelow_iff slots n).mp hfree
          exact absurd hx (hne (n - 1) (by omega) e)
      | ok s =>
          have := hok s hfree (by omega) hx
          rw [this] at hnf
          exact Except.noConfusion hnf
  · intro ⟨hlen, hfree⟩
    have hne := (errFreeBelow_iff slots n).mp hfree
    have hloop := gdeLoop_exhaust slots n 0 none
      (fun j _ hj e => hne j (by omega) e) (by omega) hn
    simp only [get_dir_entry, hloop]

/-- Witness for C9 on concrete streams: a clean two-slot stream returns
the second slot; a one-slot stream asked for two slots is NotFound; an
error in the second slot propagates when three slots are requested. -/
theorem get_dir_entry_spec_witness :
    get_dir_entry ([.ok 10, .ok 20] : List (Except Nat Nat)) 2 = .ok 20
    ∧ get_dir_entry ([.ok 10] : List (Except Nat Nat)) 2 = .error .NotFound
    ∧ get_dir_entry ([.ok 10, .error 7] : List (Except Nat Nat)) 3 = .error (.Dev 7) :=
  ⟨(get_dir_entry_spec ([.ok 10, .ok 20] : List (Except Nat Nat)) 2 (by decide)).1 20
      (by decide) (by decide) rfl,
   ((get_dir_entry_spec ([.ok 10] : List (Except Nat Nat)) 2 (by decide)).2.1).mpr
      ⟨by decide, by decide⟩,
   (get_dir_entry_spec ([.ok 10, .error 7] : List (Except Nat Nat)) 3 (by decide)).2.2 1 7
      (by decide) rfl (by decide)⟩
